import Mathlib

/-!
Verification of the randomized delta-fixture generator `testing/deltatest2.py`
of the oligocast repository.

The script maintains a list `sources` of addresses (arbitrary-precision
integers, modelled as `Nat`), repeatedly picks one of three delta kinds
(absolute / subtractive / additive), builds a delta list by a
double-threshold random-length loop, updates `sources`, and prints a pair of
command lines on stdout together with oracle lines on stderr.

Randomness is modelled by two oracle tapes indexed by a running position:
`qtape : Nat → Rat` supplies the results of `rnd.uniform` draws (as the
fraction of the upper bound, i.e. `rnd.uniform(0, m)` returns `m * qtape pos`),
and `ntape : Nat → Nat` supplies the result of integer draws
(`rnd.randrange(0, n)` and the index chosen by `rnd.choice` over a sequence
of length `n` both return `ntape pos % n`).  Every individual draw advances
the position by one.  All theorems quantify over arbitrary tapes, so nothing
depends on the distributional details of the tapes.

Ghost instrumentation (the `dens`, `chs` and `steps` fields below) records
the density argument of every `mkaddr` call, the length of the sequence at
every `rnd.choice` call, and the accepted steps; it does not influence the
computation.
-/

namespace Deltatest2

/-- Startup parameters and random tapes of one run of the script.  The two
positivity proofs embed the startup validation (`addrmax must be positive`,
`numops must be positive`); `ipver4 = true` stands for ipver 4 and
`ipver4 = false` for ipver 6, the only values the validation admits. -/
structure Env where
  qtape : Nat → Rat
  ntape : Nat → Nat
  ipver4 : Bool
  addrmax : Nat
  numops : Nat
  addrmax_pos : 0 < addrmax
  numops_pos : 0 < numops

/-- Number of host bits XOR-mutated by `mkaddr`: 24 for v4, 96 for v6. -/
def Env.hostbits (env : Env) : Nat := if env.ipver4 then 24 else 96

/-- Base network address used when no previous address exists:
10.0.0.0 for v4, fd05:aaaa:: for v6. -/
def Env.base (env : Env) : Nat :=
  if env.ipver4 then 0x0a000000 else 0xfd05aaaa000000000000000000000000

/-- Upper bound of the density draw `rnd.uniform(0, modden)`:
0.2 for v4, 0.05 for v6 (lines 109-112 of the script). -/
def Env.modden (env : Env) : Rat := if env.ipver4 then mkRat 1 5 else mkRat 1 20

/-- `mkbits l d` of the script: a number with `l` bits, bit `i` set iff the
uniform draw at tape position `pos + i` is below the density `d`. -/
def mkbits (q : Nat → Rat) (d : Rat) : Nat → Nat → Nat
  | _, 0 => 0
  | pos, l + 1 => (if q pos < d then 1 else 0) + 2 * mkbits q d (pos + 1) l

/-- `mkaddr b d` of the script: XOR the previous address (or the base network
address if there is none) with an `Env.hostbits`-wide random bit vector whose
draws start at tape position `pos`. -/
def mkaddr (env : Env) (b : Option Nat) (d : Rat) (pos : Nat) : Nat :=
  Nat.xor (b.getD env.base) (mkbits env.qtape d pos env.hostbits)

/-- Multiplication of rationals by cross-multiplying numerators and
denominators and normalizing; extensionally equal to `Rat.mul`
(`ratMul_eq` below) while staying reducible inside the kernel, which keeps
concrete runs decidable. -/
def ratMul (a b : Rat) : Rat := mkRat (a.num * b.num) (a.den * b.den)

/-- Result of producing one candidate address inside a builder loop. -/
structure Cand where
  addr : Nat
  pos : Nat
  dens : List Rat
  chs : List Nat
  deriving Repr, DecidableEq

/-- One candidate of a builder loop: with the short-circuit guard
`len(pick) and rnd.uniform(0,1) < p` re-select a member of `pick`
(via `rnd.choice`), otherwise synthesize `mkaddr(a, rnd.uniform(0, modden))`.
`dens` records the density passed to `mkaddr` (ghost), `chs` records the
length of the sequence given to `rnd.choice` (ghost). -/
def candidate (env : Env) (pick : List Nat) (p : Rat) (a : Option Nat)
    (pos : Nat) : Cand :=
  if hp : pick ≠ [] then
    if env.qtape pos < p then
      { addr := pick.get ⟨env.ntape (pos + 1) % pick.length,
          Nat.mod_lt _ (List.length_pos.mpr hp)⟩,
        pos := pos + 2, dens := [], chs := [pick.length] }
    else
      let d := ratMul env.modden (env.qtape (pos + 1))
      { addr := mkaddr env a d (pos + 2),
        pos := pos + 2 + env.hostbits, dens := [d], chs := [] }
  else
    let d := ratMul env.modden (env.qtape pos)
    { addr := mkaddr env a d (pos + 1),
      pos := pos + 1 + env.hostbits, dens := [d], chs := [] }

/-- Result of a whole builder loop. -/
structure BuildOut where
  delta : List Nat
  a : Option Nat
  pos : Nat
  dens : List Rat
  chs : List Nat
  deriving Repr, DecidableEq

/-- The double-threshold builder loop
`while (len(delta) < lencrit() or len(delta) < lencrit())` with
`lencrit() = rnd.randrange(0, bound)`, modelled with structural fuel.
Every iteration appends one candidate, so starting from the empty list with
`fuel = bound ≥ 1` the fuel can never run out before both threshold tests
fail (`dloopF_length_lt` below); the fuel-exhausted branch is therefore
unreachable at every call site. -/
def dloopF (env : Env) (bound : Nat) (pick : List Nat → List Nat) (p : Rat) :
    Nat → List Nat → Option Nat → Nat → List Rat → List Nat → BuildOut
  | 0, delta, a, pos, dens, chs => ⟨delta, a, pos + 2, dens, chs⟩
  | fuel + 1, delta, a, pos, dens, chs =>
    if delta.length < env.ntape pos % bound then
      let c := candidate env (pick delta) p a (pos + 1)
      dloopF env bound pick p fuel (delta ++ [c.addr]) (some c.addr) c.pos
        (dens ++ c.dens) (chs ++ c.chs)
    else if delta.length < env.ntape (pos + 1) % bound then
      let c := candidate env (pick delta) p a (pos + 2)
      dloopF env bound pick p fuel (delta ++ [c.addr]) (some c.addr) c.pos
        (dens ++ c.dens) (chs ++ c.chs)
    else ⟨delta, a, pos + 2, dens, chs⟩

/-- Builder loop as invoked by the script: empty initial delta. -/
def dloop (env : Env) (bound : Nat) (pick : List Nat → List Nat) (p : Rat)
    (a : Option Nat) (pos : Nat) : BuildOut :=
  dloopF env bound pick p bound [] a pos [] []

/-- `sorted(set(l))` of the script: deduplicate, then sort ascending. -/
def dedupSort (l : List Nat) : List Nat :=
  l.dedup.insertionSort (· ≤ ·)

/-- The three delta kinds. -/
inductive DType where
  | abs
  | add
  | sub
  deriving Repr, DecidableEq

/-- Kind marker appearing after `-E` on the command line:
empty for absolute, `+` for additive, `-` for subtractive. -/
def dtStr : DType → String
  | .abs => ""
  | .add => "+"
  | .sub => "-"

/-- Lines of the primary (stdout) stream, structurally. -/
inductive PLine where
  | cmd (dt : DType) (delta : List Nat)
  | query
  | term
  deriving Repr, DecidableEq

/-- Lines of the oracle (stderr) stream, structurally. -/
inductive OLine where
  | recvCmd (dt : DType) (delta : List Nat)
  | recvQuery
  | setting (srcs : List Nat)
  | recvTerm
  deriving Repr, DecidableEq

/-- Ghost record of one accepted step: its kind, its delta list, and the
`sources` list right after the step (the content the oracle's
`source setting` line declares). -/
structure StepRec where
  dt : DType
  delta : List Nat
  after : List Nat
  deriving Repr, DecidableEq

/-- Full state of the main loop: tape position, the global chaining address
`a`, the `sources` list, the accepted-step counter `o`, the two output
streams, and the ghost records. -/
structure St where
  pos : Nat
  a : Option Nat
  sources : List Nat
  o : Nat
  prim : List PLine
  orac : List OLine
  steps : List StepRec
  dens : List Rat
  chs : List Nat
  deriving Repr, DecidableEq

/-- Initial state: empty sources, step counter 0, `a = None`, no output. -/
def st0 : St := ⟨0, none, [], 0, [], [], [], [], []⟩

/-- Accept a step: install the new sources list, bump the counter, and print
the command pair on the primary stream and the three oracle lines (lines
185-193 of the script). -/
def accept (s : St) (dt : DType) (delta srcs : List Nat) (a : Option Nat)
    (pos : Nat) (dens : List Rat) (chs : List Nat) : St :=
  { pos := pos, a := a, sources := srcs, o := s.o + 1,
    prim := s.prim ++ [.cmd dt delta, .query],
    orac := s.orac ++ [.recvCmd dt delta, .recvQuery, .setting srcs],
    steps := s.steps ++ [⟨dt, delta, srcs⟩],
    dens := s.dens ++ dens, chs := s.chs ++ chs }

/-- Reject an attempt (`continue`): keep sources, counter and output, but the
tape position and the global `a` keep whatever the builder loop did. -/
def reject (s : St) (a : Option Nat) (pos : Nat) (dens : List Rat)
    (chs : List Nat) : St :=
  { s with pos := pos, a := a, dens := s.dens ++ dens, chs := s.chs ++ chs }

/-- Absolute branch (lines 121-133): build a delta with bound `addrmax` and
re-selection from the delta built so far with probability 0.4, then replace
`sources` by `sorted(delta)` (no dedup).  Always accepted. -/
def absoluteBranch (env : Env) (s : St) (pos : Nat) : St :=
  let b := dloop env env.addrmax (fun d => d) (mkRat 2 5) s.a pos
  accept s .abs b.delta (b.delta.insertionSort (· ≤ ·)) b.a b.pos b.dens b.chs

/-- Subtractive branch (lines 134-158): bound
`len(sources) + (len(sources) >> 2) + 1`, re-selection from `sources` with
probability 0.6; reject if the delta is empty; otherwise keep exactly the
old sources not occurring in the delta. -/
def subtractiveBranch (env : Env) (s : St) (pos : Nat) : St :=
  let b := dloop env (s.sources.length + s.sources.length / 4 + 1)
    (fun _ => s.sources) (mkRat 3 5) s.a pos
  if b.delta = [] then reject s b.a b.pos b.dens b.chs
  else accept s .sub b.delta
    (s.sources.filter (fun x => decide (x ∉ b.delta))) b.a b.pos b.dens b.chs

/-- Additive branch (lines 159-183): bound `addrmax`, re-selection from
`sources` with probability 0.4; reject if the deduplicated union would reach
`addrmax` or the delta is empty; otherwise `sources` becomes the sorted
deduplicated union. -/
def additiveBranch (env : Env) (s : St) (pos : Nat) : St :=
  let b := dloop env env.addrmax (fun _ => s.sources) (mkRat 2 5) s.a pos
  let merged := dedupSort (s.sources ++ b.delta)
  if env.addrmax ≤ merged.length then reject s b.a b.pos b.dens b.chs
  else if b.delta = [] then reject s b.a b.pos b.dens b.chs
  else accept s .add b.delta merged b.a b.pos b.dens b.chs

/-- One iteration of the `while o < numops` loop (one attempt, accepted or
rejected).  The kind choice (lines 121, 134) short-circuits: at `o = 0` no
draw happens; otherwise one uniform draw decides absolute, and if not, one
`rnd.choice((False, True))` draw decides subtractive versus additive. -/
def attempt (env : Env) (s : St) : St :=
  if s.o = 0 then absoluteBranch env s s.pos
  else if env.qtape s.pos < mkRat 1 5 then absoluteBranch env s (s.pos + 1)
  else if env.ntape (s.pos + 1) % 2 = 1 then subtractiveBranch env s (s.pos + 2)
  else additiveBranch env s (s.pos + 2)

/-- The main loop, with fuel bounding the number of attempts (the script's
loop is unbounded and may fail to terminate; a run "terminates normally"
iff some fuel suffices). -/
def runLoop (env : Env) : Nat → St → Option St
  | 0, s => if env.numops ≤ s.o then some s else none
  | fuel + 1, s =>
    if env.numops ≤ s.o then some s else runLoop env fuel (attempt env s)

/-- Final `.x` line pair (lines 197-198). -/
def finish (s : St) : St :=
  { s with prim := s.prim ++ [.term], orac := s.orac ++ [.recvTerm] }

/-- A whole run from the initial state, `none` when `fuel` attempts do not
reach `numops` accepted steps. -/
def run (env : Env) (fuel : Nat) : Option St :=
  (runLoop env fuel st0).map finish

/-- `addrsout` of the script, over an arbitrary textual address rendering:
comma-joined addresses, or the sentinel `-` for an empty list. -/
def addrsout (f : Nat → String) (l : List Nat) : String :=
  if l.length ≠ 0 then String.intercalate "," (l.map f) else "-"

/-- Text of a primary-stream line (lines 186, 188, 197). -/
def renderP (f : Nat → String) : PLine → String
  | .cmd dt delta => "-E" ++ dtStr dt ++ addrsout f delta
  | .query => "?E"
  | .term => ".x"

/-- The per-kind `sources` update the code performs: an absolute delta
replaces `sources` by `sorted(delta)` (duplicates retained), an additive
delta by the sorted deduplicated union, a subtractive delta removes every
delta member. -/
def applyCmd (st : List Nat) (dt : DType) (delta : List Nat) : List Nat :=
  match dt with
  | .abs => delta.insertionSort (· ≤ ·)
  | .add => dedupSort (st ++ delta)
  | .sub => st.filter (fun x => decide (x ∉ delta))

/-- Modelled from the spec, for comparison with `applyCmd`: the spec's
documented absolute semantics replaces the SourceSet with the
**deduplicated** sorted delta ("Result is deduplicated and sorted");
additive and subtractive agree with the code. -/
def applyCmdSpec (st : List Nat) (dt : DType) (delta : List Nat) : List Nat :=
  match dt with
  | .abs => dedupSort delta
  | .add => dedupSort (st ++ delta)
  | .sub => st.filter (fun x => decide (x ∉ delta))

/-- Replaying the recorded commands from `st` with the code's per-kind
update reproduces every recorded `source setting` content. -/
def ReplayFrom (st : List Nat) : List StepRec → Prop
  | [] => True
  | r :: rest => applyCmd st r.dt r.delta = r.after ∧ ReplayFrom r.after rest

/-- Replaying with the spec's documented per-kind update (deduplicating
absolute) reproduces every recorded `source setting` content. -/
def ReplaySpecFrom (st : List Nat) : List StepRec → Prop
  | [] => True
  | r :: rest => applyCmdSpec st r.dt r.delta = r.after ∧ ReplaySpecFrom r.after rest

/-- The `source setting` content declared by the last recorded step
(`st` when no step was recorded yet). -/
def lastAfter (st : List Nat) : List StepRec → List Nat
  | [] => st
  | r :: rest => lastAfter r.after rest

/-- Primary-stream lines generated by a list of accepted steps: one command
line and one `?E` query line per step. -/
def primOf : List StepRec → List PLine
  | [] => []
  | r :: rest => [PLine.cmd r.dt r.delta, PLine.query] ++ primOf rest

/-- Oracle-stream lines generated by a list of accepted steps: the command
echo, the query echo, and the `source setting` line. -/
def oracOf : List StepRec → List OLine
  | [] => []
  | r :: rest =>
    [OLine.recvCmd r.dt r.delta, OLine.recvQuery, OLine.setting r.after] ++
      oracOf rest

/-- Text of the primary-stream lines of a list of accepted steps. -/
def primTextOf (f : Nat → String) : List StepRec → List String
  | [] => []
  | r :: rest =>
    ["-E" ++ dtStr r.dt ++ addrsout f r.delta, "?E"] ++ primTextOf f rest

/-- Membership in the configured base network: all bits above the host
field agree with the base address (10.0.0.0/8 for v4, fd05:aaaa::/32
for v6). -/
def InNet (env : Env) (x : Nat) : Prop :=
  x / 2 ^ env.hostbits = env.base / 2 ^ env.hostbits

/-- Concrete counterexample environment: IPv4, `addrmax = 3`, `numops = 1`,
every uniform draw returning half of its range, every integer draw
returning 2.  Its single (absolute) step builds the delta
`[10.0.0.0, 10.0.0.0]` and installs it as `sources` without
deduplication. -/
def envC : Env := ⟨fun _ => mkRat 1 2, fun _ => 2, true, 3, 1, by decide, by decide⟩

/-- Concrete witness environment: like `envC` but with every uniform draw
returning 0, so builder loops re-select already chosen members. -/
def envW : Env := ⟨fun _ => mkRat 0 1, fun _ => 2, true, 3, 1, by decide, by decide⟩

/-- Concrete state with three sources, used to exercise the subtractive
branch. -/
def sW : St := ⟨0, none, [10, 20, 30], 0, [], [], [], [], []⟩

/-- Invariant of every reachable state of the main loop. -/
structure Inv (env : Env) (s : St) : Prop where
  len : s.sources.length < env.addrmax
  srt : List.Sorted (· ≤ ·) s.sources
  net_src : ∀ x ∈ s.sources, InNet env x
  net_a : ∀ y, s.a = some y → InNet env y
  steps_count : s.steps.length = s.o
  prim_eq : s.prim = primOf s.steps
  orac_eq : s.orac = oracOf s.steps
  replay : ReplayFrom [] s.steps
  last_src : lastAfter [] s.steps = s.sources
  step_abs : ∀ r ∈ s.steps, r.dt = DType.abs →
    r.after = r.delta.insertionSort (· ≤ ·)
  step_add : ∀ r ∈ s.steps, r.dt = DType.add → r.after.Nodup
  step_net : ∀ r ∈ s.steps,
    (∀ x ∈ r.delta, InNet env x) ∧ ∀ x ∈ r.after, InNet env x
  step_len : ∀ r ∈ s.steps, r.after.length < env.addrmax
  chs_pos : ∀ c ∈ s.chs, 0 < c
  dens_form : ∀ d ∈ s.dens, ∃ k, d = ratMul env.modden (env.qtape k)

/-! ### Lemmas about address synthesis -/

theorem ratMul_eq (a b : Rat) : ratMul a b = a * b := by
  rw [Rat.mul_def]
  simp [ratMul, Rat.normalize_eq_mkRat]

theorem mkbits_lt (q : Nat → Rat) (d : Rat) :
    ∀ l pos, mkbits q d pos l < 2 ^ l := by
  intro l
  induction l with
  | zero => intro pos; simp [mkbits]
  | succ n ih =>
    intro pos
    have h := ih (pos + 1)
    by_cases hq : q pos < d <;> simp [mkbits, hq, pow_succ] <;> omega

theorem xor_div_two_pow {m : Nat} (b : Nat) (k : Nat) (hm : m < 2 ^ k) :
    (b ^^^ m) / 2 ^ k = b / 2 ^ k := by
  have h1 : (b ^^^ m) >>> k = b >>> k := by
    apply Nat.eq_of_testBit_eq
    intro i
    have hmb : m.testBit (k + i) = false :=
      Nat.testBit_lt_two_pow
        (lt_of_lt_of_le hm (Nat.pow_le_pow_right (by norm_num) (Nat.le_add_right _ _)))
    simp [Nat.testBit_shiftRight, Nat.testBit_xor, hmb]
  rw [← Nat.shiftRight_eq_div_pow, ← Nat.shiftRight_eq_div_pow, h1]

theorem base_inNet (env : Env) : InNet env env.base := rfl

theorem mkaddr_inNet (env : Env) (b : Option Nat) (d : Rat) (pos : Nat)
    (hb : ∀ y, b = some y → InNet env y) : InNet env (mkaddr env b d pos) := by
  have hlt : mkbits env.qtape d pos env.hostbits < 2 ^ env.hostbits :=
    mkbits_lt _ _ _ _
  cases b with
  | none =>
    show (env.base ^^^ _) / _ = _
    rw [xor_div_two_pow _ _ hlt]
  | some y =>
    show (y ^^^ _) / _ = _
    rw [xor_div_two_pow _ _ hlt]
    exact hb y rfl

/-! ### Lemmas about candidate production -/

theorem candidate_dens_form (env : Env) (pick : List Nat) (p : Rat)
    (a : Option Nat) (pos : Nat) :
    ∀ d ∈ (candidate env pick p a pos).dens,
      ∃ k, d = ratMul env.modden (env.qtape k) := by
  unfold candidate
  split
  · split
    · simp
    · intro d hd
      simp at hd
      exact ⟨pos + 1, hd⟩
  · intro d hd
    simp at hd
    exact ⟨pos, hd⟩

theorem candidate_chs_pos (env : Env) (pick : List Nat) (p : Rat)
    (a : Option Nat) (pos : Nat) :
    ∀ c ∈ (candidate env pick p a pos).chs, 0 < c := by
  unfold candidate
  split
  · rename_i hp
    split
    · intro c hc
      simp at hc
      subst hc
      exact List.length_pos.mpr hp
    · simp
  · simp

theorem candidate_inNet (env : Env) (pick : List Nat) (p : Rat)
    (a : Option Nat) (pos : Nat) (hpick : ∀ x ∈ pick, InNet env x)
    (ha : ∀ y, a = some y → InNet env y) :
    InNet env (candidate env pick p a pos).addr := by
  unfold candidate
  split
  · split
    · exact hpick _ (List.get_mem _ _ _)
    · exact mkaddr_inNet env a _ _ ha
  · exact mkaddr_inNet env a _ _ ha

/-! ### Lemmas about the double-threshold builder loop -/

theorem dloopF_length_lt (env : Env) (bound : Nat) (pick : List Nat → List Nat)
    (p : Rat) :
    ∀ fuel delta a pos dens chs, delta.length < bound →
      (dloopF env bound pick p fuel delta a pos dens chs).delta.length < bound := by
  intro fuel
  induction fuel with
  | zero => intro delta a pos dens chs h; simpa [dloopF] using h
  | succ n ih =>
    intro delta a pos dens chs h
    have hb : 0 < bound := by omega
    simp only [dloopF]
    split
    · rename_i h1
      have hm : env.ntape pos % bound < bound := Nat.mod_lt _ hb
      apply ih
      simp only [List.length_append, List.length_cons, List.length_nil]
      omega
    · split
      · rename_i h2
        have hm : env.ntape (pos + 1) % bound < bound := Nat.mod_lt _ hb
        apply ih
        simp only [List.length_append, List.length_cons, List.length_nil]
        omega
      · simpa using h

theorem dloopF_dens_form (env : Env) (bound : Nat) (pick : List Nat → List Nat)
    (p : Rat) :
    ∀ fuel delta a pos dens chs,
      (∀ d ∈ dens, ∃ k, d = ratMul env.modden (env.qtape k)) →
      ∀ d ∈ (dloopF env bound pick p fuel delta a pos dens chs).dens,
        ∃ k, d = ratMul env.modden (env.qtape k) := by
  intro fuel
  induction fuel with
  | zero => intro delta a pos dens chs h; simpa [dloopF] using h
  | succ n ih =>
    intro delta a pos dens chs h
    simp only [dloopF]
    split
    · apply ih
      intro d hd
      rcases List.mem_append.mp hd with hd | hd
      · exact h d hd
      · exact candidate_dens_form env _ p a (pos + 1) d hd
    · split
      · apply ih
        intro d hd
        rcases List.mem_append.mp hd with hd | hd
        · exact h d hd
        · exact candidate_dens_form env _ p a (pos + 2) d hd
      · simpa using h

theorem dloopF_chs_pos (env : Env) (bound : Nat) (pick : List Nat → List Nat)
    (p : Rat) :
    ∀ fuel delta a pos dens chs,
      (∀ c ∈ chs, 0 < c) →
      ∀ c ∈ (dloopF env bound pick p fuel delta a pos dens chs).chs, 0 < c := by
  intro fuel
  induction fuel with
  | zero => intro delta a pos dens chs h; simpa [dloopF] using h
  | succ n ih =>
    intro delta a pos dens chs h
    simp only [dloopF]
    split
    · apply ih
      intro c hc
      rcases List.mem_append.mp hc with hc | hc
      · exact h c hc
      · exact candidate_chs_pos env _ p a (pos + 1) c hc
    · split
      · apply ih
        intro c hc
        rcases List.mem_append.mp hc with hc | hc
        · exact h c hc
        · exact candidate_chs_pos env _ p a (pos + 2) c hc
      · simpa using h

theorem dloopF_inNet (env : Env) (bound : Nat) (pick : List Nat → List Nat)
    (p : Rat)
    (hpick : ∀ l, (∀ x ∈ l, InNet env x) → ∀ x ∈ pick l, InNet env x) :
    ∀ fuel delta a pos dens chs,
      (∀ x ∈ delta, InNet env x) → (∀ y, a = some y → InNet env y) →
      (∀ x ∈ (dloopF env bound pick p fuel delta a pos dens chs).delta,
          InNet env x) ∧
      (∀ y, (dloopF env bound pick p fuel delta a pos dens chs).a = some y →
          InNet env y) := by
  intro fuel
  induction fuel with
  | zero =>
    intro delta a pos dens chs hd ha
    simp only [dloopF]
    exact ⟨hd, ha⟩
  | succ n ih =>
    intro delta a pos dens chs hd ha
    simp only [dloopF]
    split
    · have hcand : InNet env (candidate env (pick delta) p a (pos + 1)).addr :=
        candidate_inNet env _ p a (pos + 1) (hpick delta hd) ha
      apply ih
      · intro x hx
        rcases List.mem_append.mp hx with hx | hx
        · exact hd x hx
        · simp at hx; subst hx; exact hcand
      · intro y hy
        injection hy with hy
        subst hy; exact hcand
    · split
      · have hcand : InNet env (candidate env (pick delta) p a (pos + 2)).addr :=
          candidate_inNet env _ p a (pos + 2) (hpick delta hd) ha
        apply ih
        · intro x hx
          rcases List.mem_append.mp hx with hx | hx
          · exact hd x hx
          · simp at hx; subst hx; exact hcand
        · intro y hy
          injection hy with hy
          subst hy; exact hcand
      · exact ⟨hd, ha⟩

theorem dloop_length_lt (env : Env) (bound : Nat) (pick : List Nat → List Nat)
    (p : Rat) (a : Option Nat) (pos : Nat) (hb : 0 < bound) :
    (dloop env bound pick p a pos).delta.length < bound :=
  dloopF_length_lt env bound pick p bound [] a pos [] [] (by simpa using hb)

theorem dloop_dens_form (env : Env) (bound : Nat) (pick : List Nat → List Nat)
    (p : Rat) (a : Option Nat) (pos : Nat) :
    ∀ d ∈ (dloop env bound pick p a pos).dens,
      ∃ k, d = ratMul env.modden (env.qtape k) :=
  dloopF_dens_form env bound pick p bound [] a pos [] [] (by simp)

theorem dloop_chs_pos (env : Env) (bound : Nat) (pick : List Nat → List Nat)
    (p : Rat) (a : Option Nat) (pos : Nat) :
    ∀ c ∈ (dloop env bound pick p a pos).chs, 0 < c :=
  dloopF_chs_pos env bound pick p bound [] a pos [] [] (by simp)

theorem dloop_inNet (env : Env) (bound : Nat) (pick : List Nat → List Nat)
    (p : Rat) (a : Option Nat) (pos : Nat)
    (hpick : ∀ l, (∀ x ∈ l, InNet env x) → ∀ x ∈ pick l, InNet env x)
    (ha : ∀ y, a = some y → InNet env y) :
    (∀ x ∈ (dloop env bound pick p a pos).delta, InNet env x) ∧
    (∀ y, (dloop env bound pick p a pos).a = some y → InNet env y) :=
  dloopF_inNet env bound pick p hpick bound [] a pos [] [] (by simp) ha

theorem dloop_bound_one (env : Env) (pick : List Nat → List Nat) (p : Rat)
    (a : Option Nat) (pos : Nat) :
    (dloop env 1 pick p a pos).delta = [] := by
  simp [dloop, dloopF, Nat.mod_one]

/-! ### Lemmas about sorting, streams and replay -/

theorem dedupSort_sorted (l : List Nat) : List.Sorted (· ≤ ·) (dedupSort l) :=
  List.sorted_insertionSort _ _

theorem dedupSort_nodup (l : List Nat) : (dedupSort l).Nodup :=
  (List.perm_insertionSort _ _).symm.nodup (List.nodup_dedup l)

theorem mem_dedupSort {x : Nat} {l : List Nat} : x ∈ dedupSort l ↔ x ∈ l :=
  (List.perm_insertionSort _ _).mem_iff.trans List.mem_dedup

theorem primOf_append (l1 l2 : List StepRec) :
    primOf (l1 ++ l2) = primOf l1 ++ primOf l2 := by
  induction l1 with
  | nil => rfl
  | cons r rest ih => simp [primOf, ih]

theorem oracOf_append (l1 l2 : List StepRec) :
    oracOf (l1 ++ l2) = oracOf l1 ++ oracOf l2 := by
  induction l1 with
  | nil => rfl
  | cons r rest ih => simp [oracOf, ih]

theorem primTextOf_append (f : Nat → String) (l1 l2 : List StepRec) :
    primTextOf f (l1 ++ l2) = primTextOf f l1 ++ primTextOf f l2 := by
  induction l1 with
  | nil => rfl
  | cons r rest ih => simp [primTextOf, ih]

theorem map_renderP_primOf (f : Nat → String) (l : List StepRec) :
    (primOf l).map (renderP f) = primTextOf f l := by
  induction l with
  | nil => rfl
  | cons r rest ih => simp [primOf, primTextOf, renderP, ih]

theorem lastAfter_append (st : List Nat) (l : List StepRec) (r : StepRec) :
    lastAfter st (l ++ [r]) = r.after := by
  induction l generalizing st with
  | nil => rfl
  | cons q rest ih => exact ih q.after

theorem replayFrom_append (st : List Nat) (l : List StepRec) (r : StepRec)
    (h1 : ReplayFrom st l)
    (h2 : applyCmd (lastAfter st l) r.dt r.delta = r.after) :
    ReplayFrom st (l ++ [r]) := by
  induction l generalizing st with
  | nil => exact ⟨h2, trivial⟩
  | cons q rest ih => exact ⟨h1.1, ih q.after h1.2 h2⟩

/-! ### Preservation of the invariant -/

theorem inv_accept (env : Env) (s : St) (dt : DType) (delta srcs : List Nat)
    (a : Option Nat) (pos : Nat) (dens : List Rat) (chs : List Nat)
    (h : Inv env s)
    (hsrcs : applyCmd s.sources dt delta = srcs)
    (hlen : srcs.length < env.addrmax)
    (hsort : List.Sorted (· ≤ ·) srcs)
    (hnd : ∀ x ∈ delta, InNet env x)
    (hns : ∀ x ∈ srcs, InNet env x)
    (hna : ∀ y, a = some y → InNet env y)
    (habs : dt = DType.abs → srcs = delta.insertionSort (· ≤ ·))
    (hadd : dt = DType.add → srcs.Nodup)
    (hdens : ∀ d ∈ dens, ∃ k, d = ratMul env.modden (env.qtape k))
    (hchs : ∀ c ∈ chs, 0 < c) :
    Inv env (accept s dt delta srcs a pos dens chs) := by
  constructor
  · exact hlen
  · exact hsort
  · exact hns
  · exact hna
  · show (s.steps ++ [(⟨dt, delta, srcs⟩ : StepRec)]).length = s.o + 1
    simp [h.steps_count]
  · show s.prim ++ _ = primOf (s.steps ++ [(⟨dt, delta, srcs⟩ : StepRec)])
    rw [primOf_append, h.prim_eq]
    rfl
  · show s.orac ++ _ = oracOf (s.steps ++ [(⟨dt, delta, srcs⟩ : StepRec)])
    rw [oracOf_append, h.orac_eq]
    rfl
  · exact replayFrom_append _ _ _ h.replay (by rw [h.last_src]; exact hsrcs)
  · show lastAfter [] (s.steps ++ [(⟨dt, delta, srcs⟩ : StepRec)]) = srcs
    rw [lastAfter_append]
  · intro r hr hdt
    rcases List.mem_append.mp hr with hr | hr
    · exact h.step_abs r hr hdt
    · simp at hr
      subst hr
      exact habs hdt
  · intro r hr hdt
    rcases List.mem_append.mp hr with hr | hr
    · exact h.step_add r hr hdt
    · simp at hr
      subst hr
      exact hadd hdt
  · intro r hr
    rcases List.mem_append.mp hr with hr | hr
    · exact h.step_net r hr
    · simp at hr
      subst hr
      exact ⟨hnd, hns⟩
  · intro r hr
    rcases List.mem_append.mp hr with hr | hr
    · exact h.step_len r hr
    · simp at hr
      subst hr
      exact hlen
  · intro c hc
    rcases List.mem_append.mp hc with hc | hc
    · exact h.chs_pos c hc
    · exact hchs c hc
  · intro d hd
    rcases List.mem_append.mp hd with hd | hd
    · exact h.dens_form d hd
    · exact hdens d hd

theorem inv_reject (env : Env) (s : St) (a : Option Nat) (pos : Nat)
    (dens : List Rat) (chs : List Nat) (h : Inv env s)
    (hna : ∀ y, a = some y → InNet env y)
    (hdens : ∀ d ∈ dens, ∃ k, d = ratMul env.modden (env.qtape k))
    (hchs : ∀ c ∈ chs, 0 < c) :
    Inv env (reject s a pos dens chs) := by
  refine ⟨h.len, h.srt, h.net_src, hna, h.steps_count, h.prim_eq, h.orac_eq,
    h.replay, h.last_src, h.step_abs, h.step_add, h.step_net, h.step_len,
    ?_, ?_⟩
  · intro c hc
    rcases List.mem_append.mp hc with hc | hc
    · exact h.chs_pos c hc
    · exact hchs c hc
  · intro d hd
    rcases List.mem_append.mp hd with hd | hd
    · exact h.dens_form d hd
    · exact hdens d hd

theorem inv_absoluteBranch (env : Env) (s : St) (pos : Nat) (h : Inv env s) :
    Inv env (absoluteBranch env s pos) := by
  have hnet := dloop_inNet env env.addrmax (fun d => d) (mkRat 2 5) s.a pos
    (fun l hl => hl) h.net_a
  have hlen := dloop_length_lt env env.addrmax (fun d => d) (mkRat 2 5) s.a pos
    env.addrmax_pos
  refine inv_accept env s DType.abs _ _ _ _ _ _ h rfl ?_ ?_ hnet.1 ?_ hnet.2
    (fun _ => rfl) (fun hc => nomatch hc)
    (dloop_dens_form env env.addrmax (fun d => d) (mkRat 2 5) s.a pos)
    (dloop_chs_pos env env.addrmax (fun d => d) (mkRat 2 5) s.a pos)
  · rw [(List.perm_insertionSort _ _).length_eq]
    exact hlen
  · exact List.sorted_insertionSort _ _
  · intro x hx
    exact hnet.1 x ((List.perm_insertionSort _ _).mem_iff.mp hx)

theorem inv_subtractiveBranch (env : Env) (s : St) (pos : Nat) (h : Inv env s) :
    Inv env (subtractiveBranch env s pos) := by
  have hnet := dloop_inNet env (s.sources.length + s.sources.length / 4 + 1)
    (fun _ => s.sources) (mkRat 3 5) s.a pos (fun l _ => h.net_src) h.net_a
  have hdens := dloop_dens_form env (s.sources.length + s.sources.length / 4 + 1)
    (fun _ => s.sources) (mkRat 3 5) s.a pos
  have hchs := dloop_chs_pos env (s.sources.length + s.sources.length / 4 + 1)
    (fun _ => s.sources) (mkRat 3 5) s.a pos
  simp only [subtractiveBranch]
  split
  · exact inv_reject env s _ _ _ _ h hnet.2 hdens hchs
  · refine inv_accept env s DType.sub _ _ _ _ _ _ h rfl ?_ ?_ hnet.1 ?_ hnet.2
      (fun hc => nomatch hc) (fun hc => nomatch hc) hdens hchs
    · exact lt_of_le_of_lt (List.length_filter_le _ _) h.len
    · exact h.srt.filter _
    · intro x hx
      exact h.net_src x (List.mem_filter.mp hx).1

theorem inv_additiveBranch (env : Env) (s : St) (pos : Nat) (h : Inv env s) :
    Inv env (additiveBranch env s pos) := by
  have hnet := dloop_inNet env env.addrmax (fun _ => s.sources) (mkRat 2 5) s.a pos
    (fun l _ => h.net_src) h.net_a
  have hdens := dloop_dens_form env env.addrmax (fun _ => s.sources) (mkRat 2 5) s.a pos
  have hchs := dloop_chs_pos env env.addrmax (fun _ => s.sources) (mkRat 2 5) s.a pos
  simp only [additiveBranch]
  split
  · exact inv_reject env s _ _ _ _ h hnet.2 hdens hchs
  · split
    · exact inv_reject env s _ _ _ _ h hnet.2 hdens hchs
    · rename_i hover hne
      refine inv_accept env s DType.add _ _ _ _ _ _ h rfl ?_ ?_ hnet.1 ?_ hnet.2
        (fun hc => nomatch hc) (fun _ => dedupSort_nodup _) hdens hchs
      · omega
      · exact dedupSort_sorted _
      · intro x hx
        rcases List.mem_append.mp (mem_dedupSort.mp hx) with hx | hx
        · exact h.net_src x hx
        · exact hnet.1 x hx

theorem inv_attempt (env : Env) (s : St) (h : Inv env s) :
    Inv env (attempt env s) := by
  unfold attempt
  split
  · exact inv_absoluteBranch env s _ h
  · split
    · exact inv_absoluteBranch env s _ h
    · split
      · exact inv_subtractiveBranch env s _ h
      · exact inv_additiveBranch env s _ h

theorem inv_st0 (env : Env) : Inv env st0 := by
  refine ⟨?_, List.sorted_nil, ?_, ?_, rfl, rfl, rfl, trivial, rfl,
    ?_, ?_, ?_, ?_, ?_, ?_⟩
  · simpa [st0] using env.addrmax_pos
  · intro x hx
    exact absurd hx (List.not_mem_nil x)
  · intro y hy
    exact nomatch hy
  · intro r hr
    exact absurd hr (List.not_mem_nil r)
  · intro r hr
    exact absurd hr (List.not_mem_nil r)
  · intro r hr
    exact absurd hr (List.not_mem_nil r)
  · intro r hr
    exact absurd hr (List.not_mem_nil r)
  · intro c hc
    exact absurd hc (List.not_mem_nil c)
  · intro d hd
    exact absurd hd (List.not_mem_nil d)

theorem inv_iterate (env : Env) (n : Nat) : Inv env ((attempt env)^[n] st0) := by
  induction n with
  | zero => exact inv_st0 env
  | succ k ih =>
    rw [Function.iterate_succ_apply']
    exact inv_attempt env _ ih

/-! ### The main loop -/

theorem absoluteBranch_o (env : Env) (s : St) (pos : Nat) :
    (absoluteBranch env s pos).o = s.o + 1 := rfl

theorem subtractiveBranch_o (env : Env) (s : St) (pos : Nat) :
    (subtractiveBranch env s pos).o = s.o ∨
      (subtractiveBranch env s pos).o = s.o + 1 := by
  simp only [subtractiveBranch]
  split
  · exact Or.inl rfl
  · exact Or.inr rfl

theorem additiveBranch_o (env : Env) (s : St) (pos : Nat) :
    (additiveBranch env s pos).o = s.o ∨
      (additiveBranch env s pos).o = s.o + 1 := by
  simp only [additiveBranch]
  split
  · exact Or.inl rfl
  · split
    · exact Or.inl rfl
    · exact Or.inr rfl

theorem attempt_o (env : Env) (s : St) :
    (attempt env s).o = s.o ∨ (attempt env s).o = s.o + 1 := by
  unfold attempt
  split
  · exact Or.inr (absoluteBranch_o env s _)
  · split
    · exact Or.inr (absoluteBranch_o env s _)
    · split
      · exact subtractiveBranch_o env s _
      · exact additiveBranch_o env s _

theorem runLoop_some (env : Env) :
    ∀ fuel s t, runLoop env fuel s = some t → Inv env s →
      s.o ≤ env.numops → Inv env t ∧ t.o = env.numops := by
  intro fuel
  induction fuel with
  | zero =>
    intro s t ht hs ho
    simp only [runLoop] at ht
    split at ht
    · rename_i hle
      cases ht
      exact ⟨hs, le_antisymm ho hle⟩
    · cases ht
  | succ n ih =>
    intro s t ht hs ho
    simp only [runLoop] at ht
    split at ht
    · rename_i hle
      cases ht
      exact ⟨hs, le_antisymm ho hle⟩
    · rename_i hgt
      refine ih _ t ht (inv_attempt env s hs) ?_
      rcases attempt_o env s with h | h <;> omega

theorem run_some (env : Env) (fuel : Nat) (t : St) (h : run env fuel = some t) :
    ∃ u, Inv env u ∧ u.o = env.numops ∧ t = finish u := by
  unfold run at h
  cases hr : runLoop env fuel st0 with
  | none => rw [hr] at h; cases h
  | some u =>
    rw [hr] at h
    simp only [Option.map_some'] at h
    injection h with h
    obtain ⟨h1, h2⟩ := runLoop_some env fuel st0 u hr (inv_st0 env)
      (Nat.zero_le _)
    exact ⟨u, h1, h2, h.symm⟩

/-! ### The claims -/

/-- C1, counterexample: the run of `envC` terminates normally after its one
accepted (absolute) step, whose command carries the duplicate-containing
delta `[10.0.0.0, 10.0.0.0]`; the oracle declares the *non-deduplicated*
sorted list, so replaying with the documented semantics (absolute =
deduplicated sorted delta) does not reproduce the declared content. -/
theorem claim1_counterexample :
    ((run envC 1).map St.steps) =
      some [⟨DType.abs, [167772160, 167772160], [167772160, 167772160]⟩]
    ∧ ¬ ReplaySpecFrom []
        [⟨DType.abs, [167772160, 167772160], [167772160, 167772160]⟩] := by
  refine ⟨by decide, ?_⟩
  intro hc
  exact absurd hc.1 (by decide)

/-- C1, amended: for every normally terminating run, replaying the emitted
commands from an empty SourceSet with absolute = **sorted delta retaining
duplicates** (additive and subtractive as documented) reproduces, after
every step, exactly the SourceSet content the oracle's `source setting`
line declares. -/
theorem claim1_theorem (env : Env) (fuel : Nat) (t : St)
    (h : run env fuel = some t) : ReplayFrom [] t.steps := by
  obtain ⟨u, hu, _, ht⟩ := run_some env fuel t h
  subst ht
  exact hu.replay

theorem claim1_witness : ReplayFrom [] ((run envC 1).getD st0).steps :=
  claim1_theorem envC 1 ((run envC 1).getD st0) (by rfl)

/-- C2: after every accepted step of any reachable state the SourceSet
length is below `addrmax` (so `0 ≤ |SourceSet| < addrmax`), and the
absolute double-threshold builder loop can never produce a delta of length
`addrmax` or more. -/
theorem claim2_theorem (env : Env) (n : Nat) (r : StepRec)
    (hr : r ∈ ((attempt env)^[n] st0).steps) (a : Option Nat) (pos : Nat) :
    r.after.length < env.addrmax
    ∧ ((attempt env)^[n] st0).sources.length < env.addrmax
    ∧ (dloop env env.addrmax (fun d => d) (mkRat 2 5) a pos).delta.length
        < env.addrmax :=
  ⟨(inv_iterate env n).step_len r hr, (inv_iterate env n).len,
    dloop_length_lt env env.addrmax (fun d => d) (mkRat 2 5) a pos env.addrmax_pos⟩

theorem claim2_witness :
    (StepRec.mk DType.abs [167772160, 167772160]
        [167772160, 167772160]).after.length < envC.addrmax
    ∧ ((attempt envC)^[1] st0).sources.length < envC.addrmax
    ∧ (dloop envC envC.addrmax (fun d => d) (mkRat 2 5) none 0).delta.length
        < envC.addrmax :=
  claim2_theorem envC 1 ⟨DType.abs, [167772160, 167772160],
    [167772160, 167772160]⟩ (by decide) none 0

/-- C3, counterexample: the first step of the `envC` run is accepted
(the counter becomes 1) and leaves the SourceSet equal to
`[10.0.0.0, 10.0.0.0]`, which contains a duplicate member: an accepted
absolute step installs the sorted but *not* deduplicated delta. -/
theorem claim3_counterexample :
    (attempt envC st0).o = 1
    ∧ (attempt envC st0).sources = [167772160, 167772160]
    ∧ ¬ (attempt envC st0).sources.Nodup := by
  exact ⟨by decide, by decide, by decide⟩

/-- C3, amended: after every accepted step the SourceSet is sorted
ascending; an accepted absolute step replaces the SourceSet with the sorted
version of its delta list with duplicates retained (so the SourceSet may
contain duplicates); after an accepted additive step the SourceSet has no
duplicate members. -/
theorem claim3_theorem (env : Env) (n : Nat) (r : StepRec)
    (hr : r ∈ ((attempt env)^[n] st0).steps) :
    List.Sorted (· ≤ ·) ((attempt env)^[n] st0).sources
    ∧ (r.dt = DType.abs → r.after = r.delta.insertionSort (· ≤ ·))
    ∧ (r.dt = DType.add → r.after.Nodup) :=
  ⟨(inv_iterate env n).srt, (inv_iterate env n).step_abs r hr,
    (inv_iterate env n).step_add r hr⟩

theorem claim3_witness :
    List.Sorted (· ≤ ·) ((attempt envC)^[1] st0).sources
    ∧ (StepRec.mk DType.abs [167772160, 167772160]
        [167772160, 167772160]).after =
      (StepRec.mk DType.abs [167772160, 167772160]
        [167772160, 167772160]).delta.insertionSort (· ≤ ·) :=
  ⟨(claim3_theorem envC 1 ⟨DType.abs, [167772160, 167772160],
      [167772160, 167772160]⟩ (by decide)).1,
   (claim3_theorem envC 1 ⟨DType.abs, [167772160, 167772160],
      [167772160, 167772160]⟩ (by decide)).2.1 rfl⟩

/-- C4: the whole run is a deterministic function of the startup
parameters: for any fixed tape-derivation from the seed, equal
(seed, ip-version, addrmax, numops) give equal runs, hence byte-identical
primary and oracle streams. -/
theorem claim4_theorem (mkQ : Int → Nat → Rat) (mkN : Int → Nat → Nat)
    (seed1 seed2 : Int) (v1 v2 : Bool) (m1 m2 n1 n2 fuel : Nat)
    (hm1 : 0 < m1) (hn1 : 0 < n1) (hm2 : 0 < m2) (hn2 : 0 < n2)
    (hseed : seed1 = seed2) (hv : v1 = v2) (hm : m1 = m2) (hn : n1 = n2) :
    run ⟨mkQ seed1, mkN seed1, v1, m1, n1, hm1, hn1⟩ fuel
      = run ⟨mkQ seed2, mkN seed2, v2, m2, n2, hm2, hn2⟩ fuel := by
  subst hseed
  subst hv
  subst hm
  subst hn
  rfl

theorem claim4_witness :
    run ⟨(fun _ => mkRat 1 2), (fun _ => 2), true, 3, 1,
        by decide, by decide⟩ 1
      = run ⟨(fun _ => mkRat 1 2), (fun _ => 2), true, 3, 1,
        by decide, by decide⟩ 1 :=
  claim4_theorem (fun _ _ => mkRat 1 2) (fun _ _ => 2) 0 0 true true 3 3 1 1 1
    (by decide) (by decide) (by decide) (by decide) rfl rfl rfl rfl

/-- C5: an additive attempt is rejected exactly when its delta is empty or
the deduplicated union of SourceSet and delta reaches `addrmax`; rejection
changes neither the SourceSet, the step counter, nor the two output
streams; on acceptance the SourceSet becomes the deduplicated sorted
union and the counter advances. -/
theorem claim5_theorem (env : Env) (s : St) (pos : Nat) :
    ((dloop env env.addrmax (fun _ => s.sources) (mkRat 2 5) s.a pos).delta = [] ∨
        env.addrmax ≤ (dedupSort (s.sources ++
          (dloop env env.addrmax (fun _ => s.sources) (mkRat 2 5)
            s.a pos).delta)).length →
      (additiveBranch env s pos).sources = s.sources
      ∧ (additiveBranch env s pos).o = s.o
      ∧ (additiveBranch env s pos).prim = s.prim
      ∧ (additiveBranch env s pos).orac = s.orac)
    ∧ ((dloop env env.addrmax (fun _ => s.sources) (mkRat 2 5) s.a pos).delta ≠ []
        ∧ (dedupSort (s.sources ++
            (dloop env env.addrmax (fun _ => s.sources) (mkRat 2 5)
              s.a pos).delta)).length < env.addrmax →
      (additiveBranch env s pos).sources =
        dedupSort (s.sources ++
          (dloop env env.addrmax (fun _ => s.sources) (mkRat 2 5) s.a pos).delta)
      ∧ (additiveBranch env s pos).o = s.o + 1
      ∧ (additiveBranch env s pos).prim = s.prim ++
          [PLine.cmd DType.add
            (dloop env env.addrmax (fun _ => s.sources) (mkRat 2 5) s.a pos).delta,
           PLine.query]) := by
  constructor
  · intro hrej
    simp only [additiveBranch]
    by_cases hov : env.addrmax ≤ (dedupSort (s.sources ++
        (dloop env env.addrmax (fun _ => s.sources) (mkRat 2 5)
          s.a pos).delta)).length
    · rw [if_pos hov]
      exact ⟨rfl, rfl, rfl, rfl⟩
    · rcases hrej with hrej | hrej
      · rw [if_neg hov, if_pos hrej]
        exact ⟨rfl, rfl, rfl, rfl⟩
      · exact absurd hrej hov
  · rintro ⟨hne, hlt⟩
    simp only [additiveBranch]
    rw [if_neg (by omega), if_neg hne]
    exact ⟨rfl, rfl, rfl⟩

theorem claim5_witness :
    (additiveBranch envW st0 0).sources =
      dedupSort (st0.sources ++
        (dloop envW envW.addrmax (fun _ => st0.sources) (mkRat 2 5) st0.a 0).delta)
    ∧ (additiveBranch envW st0 0).o = st0.o + 1 :=
  ⟨((claim5_theorem envW st0 0).2 ⟨by decide, by decide⟩).1,
   ((claim5_theorem envW st0 0).2 ⟨by decide, by decide⟩).2.1⟩

/-- C6: every synthesized address lies within the configured base network
(all bits above the 24/96 host bits agree with 10.0.0.0 resp. fd05:aaaa::),
because the XORed random vector has fewer than `2 ^ hostbits` possible
bits; consequently every member of any recorded delta, of any recorded
resulting SourceSet, and of the current SourceSet is in the base network. -/
theorem claim6_theorem (env : Env) (b : Option Nat) (d : Rat) (pos n : Nat)
    (r : StepRec) (x y z : Nat)
    (hb : ∀ w, b = some w → InNet env w)
    (hr : r ∈ ((attempt env)^[n] st0).steps)
    (hx : x ∈ ((attempt env)^[n] st0).sources)
    (hy : y ∈ r.delta) (hz : z ∈ r.after) :
    InNet env (mkaddr env b d pos)
    ∧ mkbits env.qtape d pos env.hostbits < 2 ^ env.hostbits
    ∧ InNet env x ∧ InNet env y ∧ InNet env z :=
  ⟨mkaddr_inNet env b d pos hb, mkbits_lt _ _ _ _,
   (inv_iterate env n).net_src x hx,
   ((inv_iterate env n).step_net r hr).1 y hy,
   ((inv_iterate env n).step_net r hr).2 z hz⟩

theorem claim6_witness :
    InNet envC (mkaddr envC none 0 0)
    ∧ mkbits envC.qtape 0 0 envC.hostbits < 2 ^ envC.hostbits
    ∧ InNet envC 167772160 ∧ InNet envC 167772160 ∧ InNet envC 167772160 :=
  claim6_theorem envC none 0 0 1
    ⟨DType.abs, [167772160, 167772160], [167772160, 167772160]⟩
    167772160 167772160 167772160
    (fun w hw => nomatch hw) (by decide) (by decide) (by decide) (by decide)

/-- C7: a subtractive attempt's delta is bounded by
`|SourceSet| + |SourceSet|/4` (the bound is drawn below
`|SourceSet| + |SourceSet|/4 + 1`); a candidate drawn while the uniform
draw is below 0.6 re-selects an existing member; an empty delta is
rejected leaving state and output untouched; on acceptance the SourceSet
keeps exactly its old members not occurring in the delta (removing an
absent address is a silent no-op). -/
theorem claim7_theorem (env : Env) (s : St) (pos : Nat) (x : Nat)
    (a2 : Option Nat) (pos2 : Nat) :
    (dloop env (s.sources.length + s.sources.length / 4 + 1)
        (fun _ => s.sources) (mkRat 3 5) s.a pos).delta.length
      ≤ s.sources.length + s.sources.length / 4
    ∧ (s.sources ≠ [] → env.qtape pos2 < mkRat 3 5 →
        (candidate env s.sources (mkRat 3 5) a2 pos2).addr ∈ s.sources)
    ∧ ((dloop env (s.sources.length + s.sources.length / 4 + 1)
          (fun _ => s.sources) (mkRat 3 5) s.a pos).delta = [] →
        (subtractiveBranch env s pos).sources = s.sources
        ∧ (subtractiveBranch env s pos).o = s.o
        ∧ (subtractiveBranch env s pos).prim = s.prim
        ∧ (subtractiveBranch env s pos).orac = s.orac)
    ∧ ((dloop env (s.sources.length + s.sources.length / 4 + 1)
          (fun _ => s.sources) (mkRat 3 5) s.a pos).delta ≠ [] →
        (subtractiveBranch env s pos).sources =
          s.sources.filter (fun w => decide (w ∉
            (dloop env (s.sources.length + s.sources.length / 4 + 1)
              (fun _ => s.sources) (mkRat 3 5) s.a pos).delta))
        ∧ (subtractiveBranch env s pos).o = s.o + 1
        ∧ (x ∈ (subtractiveBranch env s pos).sources ↔
            x ∈ s.sources ∧ x ∉
              (dloop env (s.sources.length + s.sources.length / 4 + 1)
                (fun _ => s.sources) (mkRat 3 5) s.a pos).delta)) := by
  refine ⟨?_, ?_, ?_, ?_⟩
  · have := dloop_length_lt env (s.sources.length + s.sources.length / 4 + 1)
      (fun _ => s.sources) (mkRat 3 5) s.a pos (by omega)
    omega
  · intro hne hq
    unfold candidate
    rw [dif_pos hne, if_pos hq]
    exact List.get_mem _ _ _
  · intro hemp
    simp only [subtractiveBranch]
    rw [if_pos hemp]
    exact ⟨rfl, rfl, rfl, rfl⟩
  · intro hne
    simp only [subtractiveBranch]
    rw [if_neg hne]
    refine ⟨rfl, rfl, ?_⟩
    show x ∈ s.sources.filter _ ↔ _
    rw [List.mem_filter]
    simp

theorem claim7_witness :
    (dloop envW (sW.sources.length + sW.sources.length / 4 + 1)
        (fun _ => sW.sources) (mkRat 3 5) sW.a 0).delta.length
      ≤ sW.sources.length + sW.sources.length / 4
    ∧ (subtractiveBranch envW sW 0).sources =
        sW.sources.filter (fun w => decide (w ∉
          (dloop envW (sW.sources.length + sW.sources.length / 4 + 1)
            (fun _ => sW.sources) (mkRat 3 5) sW.a 0).delta))
    ∧ (subtractiveBranch envW sW 0).o = sW.o + 1
    ∧ (10 ∈ (subtractiveBranch envW sW 0).sources ↔
        10 ∈ sW.sources ∧ 10 ∉
          (dloop envW (sW.sources.length + sW.sources.length / 4 + 1)
            (fun _ => sW.sources) (mkRat 3 5) sW.a 0).delta) :=
  ⟨(claim7_theorem envW sW 0 10 none 0).1,
   ((claim7_theorem envW sW 0 10 none 0).2.2.2 (by decide)).1,
   ((claim7_theorem envW sW 0 10 none 0).2.2.2 (by decide)).2.1,
   ((claim7_theorem envW sW 0 10 none 0).2.2.2 (by decide)).2.2⟩

/-- C8: a normally terminating run emits exactly `numops` accepted
step-pairs — each a `-E`+marker+addresses (or `-`) command line followed by
the query line `?E` — then the single termination line `.x`, with nothing
after it; the oracle stream mirrors this with its echo lines and
`source setting` lines. -/
theorem claim8_theorem (env : Env) (fuel : Nat) (t : St) (f : Nat → String)
    (h : run env fuel = some t) :
    t.o = env.numops
    ∧ t.steps.length = env.numops
    ∧ t.prim = primOf t.steps ++ [PLine.term]
    ∧ t.orac = oracOf t.steps ++ [OLine.recvTerm]
    ∧ t.prim.map (renderP f) = primTextOf f t.steps ++ [".x"] := by
  obtain ⟨u, hu, ho, ht⟩ := run_some env fuel t h
  subst ht
  refine ⟨ho, ?_, ?_, ?_, ?_⟩
  · show u.steps.length = env.numops
    rw [hu.steps_count]
    exact ho
  · show u.prim ++ [PLine.term] = primOf u.steps ++ [PLine.term]
    rw [hu.prim_eq]
  · show u.orac ++ [OLine.recvTerm] = oracOf u.steps ++ [OLine.recvTerm]
    rw [hu.orac_eq]
  · show (u.prim ++ [PLine.term]).map (renderP f)
      = primTextOf f u.steps ++ [".x"]
    rw [List.map_append, hu.prim_eq, map_renderP_primOf]
    rfl

theorem claim8_witness :
    ((run envC 1).getD st0).o = envC.numops
    ∧ ((run envC 1).getD st0).steps.length = envC.numops :=
  ⟨(claim8_theorem envC 1 ((run envC 1).getD st0) (fun _ => "")
      (by rfl)).1,
   (claim8_theorem envC 1 ((run envC 1).getD st0) (fun _ => "")
      (by rfl)).2.1⟩

/-- C9, counterexample: in the IPv4 run of `envC` an invocation of the
address synthesizer received the density 1/10, not the fixed 0.2 = 1/5:
the code passes `rnd.uniform(0, modden)`, a fresh draw below the
per-version constant, not the constant itself. -/
theorem claim9_counterexample :
    envC.ipver4 = true
    ∧ mkRat 1 10 ∈ (attempt envC st0).dens
    ∧ mkRat 1 10 ≠ envC.modden := by
  exact ⟨rfl, by decide, by decide⟩

/-- C9, amended: every density ever passed to the address synthesizer is a
fresh uniform draw from `[0, modden)` — hence, when the uniform tape stays
in `[0,1)`, nonnegative and strictly below `modden` — where `modden` is the
fixed per-IP-version constant 0.2 (v4) resp. 0.05 (v6). -/
theorem claim9_theorem (env : Env) (n : Nat) (d : Rat)
    (hd : d ∈ ((attempt env)^[n] st0).dens)
    (hq : ∀ j, 0 ≤ env.qtape j ∧ env.qtape j < 1) :
    env.modden = (if env.ipver4 then (1:Rat)/5 else 1/20)
    ∧ 0 ≤ d ∧ d < env.modden := by
  obtain ⟨k, hk⟩ := (inv_iterate env n).dens_form d hd
  rw [ratMul_eq] at hk
  subst hk
  have hm : (0:Rat) < env.modden := by
    unfold Env.modden
    split <;> rw [Rat.mkRat_eq_divInt, Rat.divInt_eq_div] <;> norm_num
  refine ⟨?_, ?_, ?_⟩
  · unfold Env.modden
    split <;> rw [Rat.mkRat_eq_divInt, Rat.divInt_eq_div] <;> norm_num
  · exact mul_nonneg hm.le (hq k).1
  · calc env.modden * env.qtape k
        < env.modden * 1 := mul_lt_mul_of_pos_left (hq k).2 hm
      _ = env.modden := mul_one _

theorem claim9_witness :
    envC.modden = (if envC.ipver4 then (1:Rat)/5 else 1/20)
    ∧ (0:Rat) ≤ mkRat 1 10 ∧ mkRat 1 10 < envC.modden :=
  claim9_theorem envC 1 (mkRat 1 10) (by decide)
    (fun _ => (by decide : (0:Rat) ≤ mkRat 1 2 ∧ mkRat 1 2 < 1))

/-- C10: re-selection never draws from an empty sequence: every length
recorded at a `rnd.choice` call is positive; and with an empty SourceSet a
subtractive attempt's bound forces an empty delta, so the attempt is always
rejected without touching SourceSet, counter or output. -/
theorem claim10_theorem (env : Env) (n : Nat) (c : Nat) (s : St) (pos : Nat)
    (hc : c ∈ ((attempt env)^[n] st0).chs) (hs : s.sources = []) :
    0 < c
    ∧ (dloop env (s.sources.length + s.sources.length / 4 + 1)
        (fun _ => s.sources) (mkRat 3 5) s.a pos).delta = []
    ∧ (subtractiveBranch env s pos).sources = s.sources
    ∧ (subtractiveBranch env s pos).o = s.o
    ∧ (subtractiveBranch env s pos).prim = s.prim
    ∧ (subtractiveBranch env s pos).orac = s.orac := by
  have h1 := (inv_iterate env n).chs_pos c hc
  have hempty : (dloop env (s.sources.length + s.sources.length / 4 + 1)
      (fun _ => s.sources) (mkRat 3 5) s.a pos).delta = [] := by
    rw [hs]
    simpa using dloop_bound_one env (fun _ => ([] : List Nat)) (mkRat 3 5) s.a pos
  refine ⟨h1, hempty, ?_⟩
  simp only [subtractiveBranch]
  rw [if_pos hempty]
  exact ⟨rfl, rfl, rfl, rfl⟩

theorem claim10_witness :
    0 < 1
    ∧ (dloop envW (st0.sources.length + st0.sources.length / 4 + 1)
        (fun _ => st0.sources) (mkRat 3 5) st0.a 0).delta = []
    ∧ (subtractiveBranch envW st0 0).sources = st0.sources
    ∧ (subtractiveBranch envW st0 0).o = st0.o
    ∧ (subtractiveBranch envW st0 0).prim = st0.prim
    ∧ (subtractiveBranch envW st0 0).orac = st0.orac :=
  claim10_theorem envW 1 1 st0 0 (by decide) rfl

end Deltatest2
